import Mathlib

/-!
# In-memory expiring cache (`cache/cache.go`)

A shallow embedding of the Go package `cache`.

* Go `interface{}` values are `Option α`: `none` is the nil interface, `some a`
  a non-nil dynamic value.
* `int64` quantities (`Expiration`, `time.Duration`, `UnixNano()` readings) are
  `Int`; the one place where the source does `int64` arithmetic
  (`time.Now().Add(duration).UnixNano()`) wraps explicitly with `wrapInt64`.
* `map[string]CacheItem` is an association list with unique keys (`AList`).
* `time.Now().UnixNano()` is an input `now` of every operation that reads the
  clock.
* The `sync.RWMutex` is not modelled: every operation is one atomic step on the
  map.
-/

namespace cache

/-- Two's-complement wrap-around of a mathematical integer into `int64`. -/
def wrapInt64 (x : Int) : Int :=
  (x + 2 ^ 63) % 2 ^ 64 - 2 ^ 63

/-- The Go struct `CacheItem`: a payload and an absolute expiry instant in Unix
nanoseconds, `0` meaning that the item carries no expiry. -/
structure CacheItem (α : Type) where
  Value : Option α
  Expiration : Int
deriving DecidableEq, Repr

/-- The method `CacheItem.IsExpired`, with `now` the value of
`time.Now().UnixNano()`. -/
def CacheItem.IsExpired {α : Type} (item : CacheItem α) (now : Int) : Bool :=
  if item.Expiration = 0 then
    false
  else
    decide (now > item.Expiration)

/-- The Go struct `InMemoryCache`: the field `items` (the mutex `mu` carries
no data). -/
structure InMemoryCache (α : Type) where
  items : AList (fun _ : String => CacheItem α)

/-- The map built by `NewInMemoryCache`: `make(map[string]CacheItem)`. -/
def NewInMemoryCache (α : Type) : InMemoryCache α :=
  ⟨∅⟩

/-- The method `InMemoryCache.Get`. The result pairs the Go return values
`(interface{}, bool)` with the cache after the call. -/
def InMemoryCache.Get {α : Type} (c : InMemoryCache α) (key : String) (now : Int) :
    (Option α × Bool) × InMemoryCache α :=
  match c.items.lookup key with
  | none => ((none, false), c)
  | some item =>
    if item.IsExpired now then
      ((none, false), c)
    else
      ((item.Value, true), c)

/-- The method `InMemoryCache.SetWithExpiration`. The clock is read only when
`duration > 0`; `time.Now().Add(duration).UnixNano()` is the `int64` sum of the
clock reading and the duration. -/
def InMemoryCache.SetWithExpiration {α : Type} (c : InMemoryCache α) (key : String)
    (value : Option α) (duration : Int) (now : Int) : InMemoryCache α :=
  let expiration : Int := if duration > 0 then wrapInt64 (now + duration) else 0
  ⟨c.items.insert key ⟨value, expiration⟩⟩

/-- The method `InMemoryCache.Set`: `c.SetWithExpiration(key, value, 0)`. -/
def InMemoryCache.Set {α : Type} (c : InMemoryCache α) (key : String)
    (value : Option α) (now : Int) : InMemoryCache α :=
  c.SetWithExpiration key value 0 now

/-- The method `InMemoryCache.Delete`: `delete(c.items, key)`. -/
def InMemoryCache.Delete {α : Type} (c : InMemoryCache α) (key : String) :
    InMemoryCache α :=
  ⟨c.items.erase key⟩

/-- The method `InMemoryCache.Clear`: `c.items = make(map[string]CacheItem)`. -/
def InMemoryCache.Clear {α : Type} (_c : InMemoryCache α) : InMemoryCache α :=
  ⟨∅⟩

/-- The body of the `range` loop of `cleanup` for one visited entry `(k, v)`,
acting on the map `m`. -/
def cleanupStep {α : Type} (now : Int) (m : AList (fun _ : String => CacheItem α))
    (e : Sigma (fun _ : String => CacheItem α)) : AList (fun _ : String => CacheItem α) :=
  if e.2.Expiration > 0 ∧ now > e.2.Expiration then
    m.erase e.1
  else
    m

/-- The method `InMemoryCache.cleanup`: one clock reading, then a loop over
the entries of the map that deletes the keys whose entry satisfies
`v.Expiration > 0 && now > v.Expiration`. -/
def InMemoryCache.cleanup {α : Type} (c : InMemoryCache α) (now : Int) : InMemoryCache α :=
  ⟨c.items.entries.foldl (cleanupStep now) c.items⟩

/-- One call on the cache, with the clock reading it is made at when it reads
the clock. -/
inductive Op (α : Type) where
  | get (key : String) (now : Int)
  | set (key : String) (value : Option α) (now : Int)
  | setWithExpiration (key : String) (value : Option α) (duration : Int) (now : Int)
  | delete (key : String)
  | clear
  | cleanup (now : Int)

/-- The cache after one call. -/
def Op.apply {α : Type} (c : InMemoryCache α) : Op α → InMemoryCache α
  | .get key now => (c.Get key now).2
  | .set key value now => c.Set key value now
  | .setWithExpiration key value duration now => c.SetWithExpiration key value duration now
  | .delete key => c.Delete key
  | .clear => c.Clear
  | .cleanup now => c.cleanup now

/-- Whether a call is a mutation of key `k` (`Set`, `SetWithExpiration` or
`Delete` on `k`) or a `Clear`. Reads and sweeps are neither. -/
def Op.mutates {α : Type} (k : String) : Op α → Bool
  | .get _ _ => false
  | .set key _ _ => decide (key = k)
  | .setWithExpiration key _ _ _ => decide (key = k)
  | .delete key => decide (key = k)
  | .clear => true
  | .cleanup _ => false

/-- The cache after a sequence of calls, first call first. -/
def run {α : Type} (c : InMemoryCache α) (ops : List (Op α)) : InMemoryCache α :=
  ops.foldl Op.apply c

/-! ## Auxiliary lemmas -/

theorem wrapInt64_of_inRange (x : Int) (hlo : -2 ^ 63 ≤ x) (hhi : x < 2 ^ 63) :
    wrapInt64 x = x := by
  unfold wrapInt64
  rw [Int.emod_eq_of_lt (by omega) (by omega)]
  omega

theorem lookup_cleanupStep {α : Type} (now : Int) (m : AList (fun _ : String => CacheItem α))
    (e : Sigma (fun _ : String => CacheItem α)) (k : String) :
    (cleanupStep now m e).lookup k =
      if e.1 = k ∧ (e.2.Expiration > 0 ∧ now > e.2.Expiration) then none else m.lookup k := by
  unfold cleanupStep
  by_cases hc : e.2.Expiration > 0 ∧ now > e.2.Expiration
  · by_cases hk : e.1 = k
    · subst hk
      simp [hc]
    · have hk2 : k ≠ e.1 := fun h => hk h.symm
      simp [hc, hk, AList.lookup_erase_ne hk2]
  · simp [hc]

theorem lookup_foldl_cleanupStep {α : Type} (now : Int)
    (l : List (Sigma (fun _ : String => CacheItem α)))
    (m : AList (fun _ : String => CacheItem α)) (k : String) :
    (l.foldl (cleanupStep now) m).lookup k =
      if ∃ e ∈ l, e.1 = k ∧ (e.2.Expiration > 0 ∧ now > e.2.Expiration) then none
      else m.lookup k := by
  induction l generalizing m with
  | nil => simp
  | cons e l ih =>
    rw [List.foldl_cons, ih, lookup_cleanupStep]
    by_cases h1 : ∃ e2 ∈ l, e2.1 = k ∧ (e2.2.Expiration > 0 ∧ now > e2.2.Expiration)
    · have h2 : ∃ e2 ∈ e :: l, e2.1 = k ∧ (e2.2.Expiration > 0 ∧ now > e2.2.Expiration) := by
        obtain ⟨e2, he2, h⟩ := h1
        exact ⟨e2, List.mem_cons_of_mem _ he2, h⟩
      rw [if_pos h1, if_pos h2]
    · rw [if_neg h1]
      by_cases h3 : e.1 = k ∧ (e.2.Expiration > 0 ∧ now > e.2.Expiration)
      · have h2 : ∃ e2 ∈ e :: l, e2.1 = k ∧ (e2.2.Expiration > 0 ∧ now > e2.2.Expiration) :=
          ⟨e, List.mem_cons_self _ _, h3⟩
        rw [if_pos h3, if_pos h2]
      · have h2 : ¬ ∃ e2 ∈ e :: l, e2.1 = k ∧ (e2.2.Expiration > 0 ∧ now > e2.2.Expiration) := by
          rintro ⟨e2, he2, h⟩
          rcases List.mem_cons.mp he2 with rfl | hmem
          · exact h3 h
          · exact h1 ⟨e2, hmem, h⟩
        rw [if_neg h3, if_neg h2]

/-- What the sweep leaves under each key: the entry it found there, unless that
entry has `Expiration > 0` and `now > Expiration`. -/
theorem lookup_cleanup {α : Type} (c : InMemoryCache α) (now : Int) (k : String) :
    (c.cleanup now).items.lookup k =
      match c.items.lookup k with
      | none => none
      | some item =>
        if item.Expiration > 0 ∧ now > item.Expiration then none else some item := by
  unfold InMemoryCache.cleanup
  simp only
  rw [lookup_foldl_cleanupStep]
  cases hl : c.items.lookup k with
  | none =>
    simp
  | some item =>
    have hmem : Sigma.mk k item ∈ c.items.entries := AList.mem_lookup_iff.mp hl
    simp only
    by_cases hc : item.Expiration > 0 ∧ now > item.Expiration
    · rw [if_pos hc, if_pos ⟨⟨k, item⟩, hmem, rfl, hc⟩]
    · rw [if_neg hc, if_neg]
      rintro ⟨⟨k2, item2⟩, he, hk, hc2⟩
      simp only at hk hc2
      subst hk
      have h2 : item2 ∈ c.items.lookup k2 := AList.mem_lookup_iff.mpr he
      rw [hl] at h2
      have h3 : item = item2 := by simpa using h2
      subst h3
      exact hc hc2

theorem Get_of_lookup_none {α : Type} (c : InMemoryCache α) (k : String) (now : Int)
    (h : c.items.lookup k = none) : c.Get k now = ((none, false), c) := by
  unfold InMemoryCache.Get
  rw [h]

theorem Get_of_lookup_some {α : Type} (c : InMemoryCache α) (k : String) (now : Int)
    (item : CacheItem α) (h : c.items.lookup k = some item) :
    c.Get k now =
      if item.IsExpired now then ((none, false), c) else ((item.Value, true), c) := by
  unfold InMemoryCache.Get
  rw [h]

theorem Get_snd {α : Type} (c : InMemoryCache α) (k : String) (now : Int) :
    (c.Get k now).2 = c := by
  unfold InMemoryCache.Get
  cases c.items.lookup k with
  | none => rfl
  | some item =>
    simp only
    split <;> rfl

theorem lookup_SetWithExpiration_self {α : Type} (c : InMemoryCache α) (k : String)
    (v : Option α) (d now : Int) :
    (c.SetWithExpiration k v d now).items.lookup k =
      some ⟨v, if d > 0 then wrapInt64 (now + d) else 0⟩ := by
  unfold InMemoryCache.SetWithExpiration
  simp [AList.lookup_insert]

theorem lookup_SetWithExpiration_ne {α : Type} (c : InMemoryCache α) (k k2 : String)
    (v : Option α) (d now : Int) (h : k2 ≠ k) :
    (c.SetWithExpiration k v d now).items.lookup k2 = c.items.lookup k2 := by
  unfold InMemoryCache.SetWithExpiration
  simp [AList.lookup_insert_ne h]

theorem lookup_Delete_ne {α : Type} (c : InMemoryCache α) (k k2 : String) (h : k2 ≠ k) :
    (c.Delete k).items.lookup k2 = c.items.lookup k2 := by
  unfold InMemoryCache.Delete
  simp [AList.lookup_erase_ne h]

theorem lookup_apply_of_not_mutates {α : Type} (c : InMemoryCache α) (k : String)
    (v : Option α) (op : Op α) (hc : c.items.lookup k = some ⟨v, 0⟩)
    (hop : op.mutates k = false) : (Op.apply c op).items.lookup k = some ⟨v, 0⟩ := by
  cases op with
  | get key now =>
    simp only [Op.apply, Get_snd]
    exact hc
  | set key value now =>
    have hne : k ≠ key := by
      intro h
      simp [Op.mutates, h] at hop
    simp only [Op.apply, InMemoryCache.Set]
    rw [lookup_SetWithExpiration_ne c key k value 0 now hne]
    exact hc
  | setWithExpiration key value duration now =>
    have hne : k ≠ key := by
      intro h
      simp [Op.mutates, h] at hop
    simp only [Op.apply]
    rw [lookup_SetWithExpiration_ne c key k value duration now hne]
    exact hc
  | delete key =>
    have hne : k ≠ key := by
      intro h
      simp [Op.mutates, h] at hop
    simp only [Op.apply]
    rw [lookup_Delete_ne c key k hne]
    exact hc
  | clear =>
    simp [Op.mutates] at hop
  | cleanup now =>
    simp only [Op.apply]
    rw [lookup_cleanup, hc]
    simp

theorem lookup_run_of_not_mutates {α : Type} (ops : List (Op α)) (c : InMemoryCache α)
    (k : String) (v : Option α) (hc : c.items.lookup k = some ⟨v, 0⟩)
    (hops : ∀ op ∈ ops, op.mutates k = false) :
    (run c ops).items.lookup k = some ⟨v, 0⟩ := by
  induction ops generalizing c with
  | nil => exact hc
  | cons op ops ih =>
    unfold run
    rw [List.foldl_cons]
    apply ih
    · exact lookup_apply_of_not_mutates c k v op hc (hops op (List.mem_cons_self _ _))
    · intro op2 h2
      exact hops op2 (List.mem_cons_of_mem _ h2)

/-! ## Claims -/

/-- C1: after `Set(k, v)`, followed by any sequence of sweeps at arbitrary
clock readings, reads, and writes or deletes of other keys (no mutation of `k`,
no `Clear`), the entry of `k` is `(v, Expiration = 0)` and `Get(k)` returns
`(v, true)` at every clock reading. -/
theorem C1_set_survives_sweeps {α : Type} (c : InMemoryCache α) (k : String) (v : Option α)
    (t0 : Int) (ops : List (Op α)) (hops : ∀ op ∈ ops, op.mutates k = false) (t : Int) :
    (run (c.Set k v t0) ops).items.lookup k = some ⟨v, 0⟩ ∧
      ((run (c.Set k v t0) ops).Get k t).1 = (v, true) := by
  have h0 : (c.Set k v t0).items.lookup k = some ⟨v, 0⟩ := by
    unfold InMemoryCache.Set
    rw [lookup_SetWithExpiration_self]
    simp
  have h1 := lookup_run_of_not_mutates ops (c.Set k v t0) k v h0 hops
  refine ⟨h1, ?_⟩
  rw [Get_of_lookup_some _ k t _ h1]
  simp [CacheItem.IsExpired]

/-- Witness of C1: a `Set` of key a, then a write of another key that has
expired by the time of two sweeps, a read and a delete of yet another key. -/
theorem C1_set_survives_sweeps_witness :
    (∀ op ∈ [Op.setWithExpiration "b" (some 2) 10 5, Op.cleanup 100, Op.get "a" 7,
        Op.delete "c", Op.cleanup 9000000000000000000], Op.mutates "a" op = false) ∧
      (run ((NewInMemoryCache Nat).Set "a" (some 1) 3)
        [Op.setWithExpiration "b" (some 2) 10 5, Op.cleanup 100, Op.get "a" 7,
          Op.delete "c", Op.cleanup 9000000000000000000]).items.lookup "a" = some ⟨some 1, 0⟩ ∧
      ((run ((NewInMemoryCache Nat).Set "a" (some 1) 3)
        [Op.setWithExpiration "b" (some 2) 10 5, Op.cleanup 100, Op.get "a" 7,
          Op.delete "c", Op.cleanup 9000000000000000000]).Get "a" 12345).1 = (some 1, true) :=
  ⟨by decide,
    C1_set_survives_sweeps (NewInMemoryCache Nat) "a" (some 1) 3
      [Op.setWithExpiration "b" (some 2) 10 5, Op.cleanup 100, Op.get "a" 7,
        Op.delete "c", Op.cleanup 9000000000000000000] (by decide) 12345⟩

/-- C2, as stated, fails at two inputs. With the clock at 1.8e18 (the year
2027) and the largest duration `2^63 - 1`, the `int64` sum wraps to a negative
instant and `Get` at the very reading of the call reports not found. With the
clock at `-5` and duration `5` the sum is `0`, the no-expiry value, and `Get`
still returns the value at reading `1 > -5 + 5`. -/
theorem C2_counterexample :
    ((0 : Int) < 9223372036854775807 ∧
      (((NewInMemoryCache Nat).SetWithExpiration "k" (some 1) 9223372036854775807
        1800000000000000000).Get "k" 1800000000000000000).1 = (none, false)) ∧
    ((0 : Int) < 5 ∧ (1 : Int) > -5 + 5 ∧
      (((NewInMemoryCache Nat).SetWithExpiration "k" (some 1) 5 (-5)).Get "k" 1).1
        = (some 1, true)) := by
  decide

/-- C2, amended: for every duration `d > 0`, an entry of
`SetWithExpiration(k, v, d)` that `Get` reports expired at one reading is
reported expired at every later reading; and when the expiry instant `t0 + d`
is an `int64` (no wrap-around) other than `0`, `Get(k)` at `t0` returns
`(v, true)` and `Get(k)` at every `t > t0 + d` returns `(nil, false)`. -/
theorem C2_expiring_entry {α : Type} (c : InMemoryCache α) (k : String) (v : Option α)
    (d t0 : Int) (hd : 0 < d) :
    (∀ t1 t2 : Int, t1 ≤ t2 →
        ((c.SetWithExpiration k v d t0).Get k t1).1 = (none, false) →
        ((c.SetWithExpiration k v d t0).Get k t2).1 = (none, false)) ∧
      (-2 ^ 63 ≤ t0 + d → t0 + d < 2 ^ 63 → t0 + d ≠ 0 →
        ((c.SetWithExpiration k v d t0).Get k t0).1 = (v, true) ∧
        ∀ t : Int, t > t0 + d → ((c.SetWithExpiration k v d t0).Get k t).1 = (none, false)) := by
  have hl := lookup_SetWithExpiration_self c k v d t0
  rw [if_pos hd] at hl
  constructor
  · intro t1 t2 h12 h1
    rw [Get_of_lookup_some _ k t1 _ hl] at h1
    rw [Get_of_lookup_some _ k t2 _ hl]
    simp only [CacheItem.IsExpired] at h1 ⊢
    by_cases hz : wrapInt64 (t0 + d) = 0
    · simp [hz] at h1
    · by_cases hlt : t1 > wrapInt64 (t0 + d)
      · have hlt2 : t2 > wrapInt64 (t0 + d) := by omega
        simp [hz, hlt2]
      · simp [hz, hlt] at h1
  · intro hlo hhi hne
    rw [wrapInt64_of_inRange _ hlo hhi] at hl
    constructor
    · rw [Get_of_lookup_some _ k t0 _ hl]
      have hnot : ¬ t0 > t0 + d := by omega
      simp [CacheItem.IsExpired, hne, hnot]
    · intro t ht
      rw [Get_of_lookup_some _ k t _ hl]
      simp [CacheItem.IsExpired, hne, ht]

/-- Witness of C2 amended: a 100 ms entry written at reading 1.8e18, read at
once and 200 ms later. -/
theorem C2_expiring_entry_witness :
    (0 : Int) < 100000000 ∧
      (((NewInMemoryCache Nat).SetWithExpiration "key1" (some 1) 100000000
        1800000000000000000).Get "key1" 1800000000000000000).1 = (some 1, true) ∧
      (((NewInMemoryCache Nat).SetWithExpiration "key1" (some 1) 100000000
        1800000000000000000).Get "key1" 1800000000200000000).1 = (none, false) :=
  ⟨by decide,
    ((C2_expiring_entry (NewInMemoryCache Nat) "key1" (some 1) 100000000
      1800000000000000000 (by decide)).2 (by decide) (by decide) (by decide)).1,
    ((C2_expiring_entry (NewInMemoryCache Nat) "key1" (some 1) 100000000
      1800000000000000000 (by decide)).2 (by decide) (by decide) (by decide)).2
      1800000000200000000 (by decide)⟩

/-- C3: `Get(k)` at clock reading `t` reports found exactly when `k` has an
entry whose `Expiration` is `0` or is not below `t`; the value returned with
found is the stored value, the value returned with not-found is nil; a key
without an entry (in particular any key of a new cache) yields `(nil, false)`,
and so does an entry that has expired. -/
theorem C3_get_found_iff {α : Type} (c : InMemoryCache α) (k : String) (t : Int) :
    ((c.Get k t).1.2 = true ↔
        ∃ item, c.items.lookup k = some item ∧ (item.Expiration = 0 ∨ ¬ t > item.Expiration)) ∧
      (∀ item, c.items.lookup k = some item → (item.Expiration = 0 ∨ ¬ t > item.Expiration) →
        (c.Get k t).1 = (item.Value, true)) ∧
      ((c.Get k t).1.2 = false → (c.Get k t).1.1 = none) ∧
      (c.items.lookup k = none → (c.Get k t).1 = (none, false)) ∧
      ((NewInMemoryCache α).Get k t).1 = (none, false) ∧
      (∀ item, c.items.lookup k = some item → item.Expiration ≠ 0 → t > item.Expiration →
        (c.Get k t).1 = (none, false)) := by
  refine ⟨?_, ?_, ?_, ?_, ?_, ?_⟩
  · cases hl : c.items.lookup k with
    | none =>
      rw [Get_of_lookup_none c k t hl]
      simp
    | some item =>
      rw [Get_of_lookup_some c k t item hl]
      by_cases hz : item.Expiration = 0
      · simp [CacheItem.IsExpired, hz]
      · by_cases hlt : t > item.Expiration
        · simp [CacheItem.IsExpired, hz, hlt]
        · have hn : ¬ item.Expiration < t := by omega
          simp only [CacheItem.IsExpired, if_neg hz, gt_iff_lt, decide_eq_true_eq, if_neg hn,
            true_iff]
          exact ⟨item, rfl, Or.inr hn⟩
  · intro item hl hne
    rw [Get_of_lookup_some c k t item hl]
    rcases hne with hz | hlt
    · simp [CacheItem.IsExpired, hz]
    · by_cases hz : item.Expiration = 0
      · simp [CacheItem.IsExpired, hz]
      · simp [CacheItem.IsExpired, hz, hlt]
  · cases hl : c.items.lookup k with
    | none =>
      rw [Get_of_lookup_none c k t hl]
      simp
    | some item =>
      rw [Get_of_lookup_some c k t item hl]
      by_cases hx : item.IsExpired t = true
      · simp [hx]
      · simp [hx]
  · intro hl
    rw [Get_of_lookup_none c k t hl]
  · have he : (NewInMemoryCache α).items.lookup k = none := AList.lookup_empty k
    rw [Get_of_lookup_none (NewInMemoryCache α) k t he]
  · intro item hl hz hlt
    rw [Get_of_lookup_some c k t item hl]
    simp [CacheItem.IsExpired, hz, hlt]

/-- Witness of C3: a cache holding key `a` with expiry instant 50, read at
reading 60, where the entry has expired. -/
theorem C3_get_found_iff_witness :
    ((NewInMemoryCache Nat).SetWithExpiration "a" (some 1) 40 10).items.lookup "a"
        = some ⟨some 1, 50⟩ ∧
      ((50 : Int) ≠ 0 ∧ (60 : Int) > 50) ∧
      (((NewInMemoryCache Nat).SetWithExpiration "a" (some 1) 40 10).Get "a" 60).1
        = (none, false) :=
  ⟨by decide, by decide,
    (C3_get_found_iff ((NewInMemoryCache Nat).SetWithExpiration "a" (some 1) 40 10) "a" 60).2.2.2.2.2
      ⟨some 1, 50⟩ (by decide) (by decide) (by decide)⟩

/-- C4: for every duration `d <= 0`, `SetWithExpiration(k, v, d)` yields the
same cache as `Set(k, v)`, whatever the clock reads at either call: the entry
of `k` is `(v, Expiration = 0)` and `Get(k)` returns `(v, true)` at every clock
reading. -/
theorem C4_nonpositive_duration_is_set {α : Type} (c : InMemoryCache α) (k : String)
    (v : Option α) (d now now2 : Int) (hd : d ≤ 0) :
    c.SetWithExpiration k v d now = c.Set k v now2 ∧
      (c.SetWithExpiration k v d now).items.lookup k = some ⟨v, 0⟩ ∧
      ∀ t : Int, ((c.SetWithExpiration k v d now).Get k t).1 = (v, true) := by
  have hnd : ¬ d > 0 := by omega
  have hl : (c.SetWithExpiration k v d now).items.lookup k = some ⟨v, 0⟩ := by
    rw [lookup_SetWithExpiration_self, if_neg hnd]
  refine ⟨?_, hl, ?_⟩
  · simp [InMemoryCache.Set, InMemoryCache.SetWithExpiration, hnd]
  · intro t
    rw [Get_of_lookup_some _ k t _ hl]
    simp [CacheItem.IsExpired]

/-- Witness of C4: duration `-1` on a cache that already holds an expiring
entry under the same key. -/
theorem C4_nonpositive_duration_is_set_witness :
    (-1 : Int) ≤ 0 ∧
      (((NewInMemoryCache Nat).SetWithExpiration "a" (some 7) 40 10).SetWithExpiration
          "a" (some 1) (-1) 20).items.lookup "a" = some ⟨some 1, 0⟩ ∧
      ((((NewInMemoryCache Nat).SetWithExpiration "a" (some 7) 40 10).SetWithExpiration
          "a" (some 1) (-1) 20).Get "a" 1000).1 = (some 1, true) :=
  ⟨by decide,
    (C4_nonpositive_duration_is_set ((NewInMemoryCache Nat).SetWithExpiration "a" (some 7) 40 10)
      "a" (some 1) (-1) 20 20 (by decide)).2.1,
    (C4_nonpositive_duration_is_set ((NewInMemoryCache Nat).SetWithExpiration "a" (some 7) 40 10)
      "a" (some 1) (-1) 20 20 (by decide)).2.2 1000⟩

/-- C5 at the failing input: `SetWithExpiration` at clock reading 1.8e18 with
the largest duration `2^63 - 1` stores the wrapped, negative expiry instant
`-7423372036854775809`. The entry is expired for `IsExpired` and `Get` (its
`Expiration` is not `0` and lies in the past), yet a sweep at the same reading
leaves it in the map, because the sweep tests `Expiration > 0`. -/
theorem C5_cleanup_keeps_negative_expiration :
    ((NewInMemoryCache Nat).SetWithExpiration "k" (some 1) 9223372036854775807
        1800000000000000000).items.lookup "k" = some ⟨some 1, -7423372036854775809⟩ ∧
      ((-7423372036854775809 : Int) ≠ 0 ∧ (1800000000000000000 : Int) > -7423372036854775809) ∧
      CacheItem.IsExpired (⟨some 1, -7423372036854775809⟩ : CacheItem Nat)
        1800000000000000000 = true ∧
      (((NewInMemoryCache Nat).SetWithExpiration "k" (some 1) 9223372036854775807
        1800000000000000000).cleanup 1800000000000000000).items.lookup "k"
        = some ⟨some 1, -7423372036854775809⟩ := by
  decide

/-- C6: `Delete(k)` is total; on a cache without `k` it returns the cache
unchanged; in every case `k` has no entry afterwards, the set of keys is the
former one without `k`, every other key keeps its entry, and `Get(k)` returns
`(nil, false)` at every clock reading. -/
theorem C6_delete {α : Type} (c : InMemoryCache α) (k : String) :
    (c.items.lookup k = none → c.Delete k = c) ∧
      (c.Delete k).items.lookup k = none ∧
      (c.Delete k).items.keys = c.items.keys.erase k ∧
      (∀ k2 : String, k2 ≠ k → (c.Delete k).items.lookup k2 = c.items.lookup k2) ∧
      (∀ t : Int, ((c.Delete k).Get k t).1 = (none, false)) := by
  have hl : (c.Delete k).items.lookup k = none := by
    unfold InMemoryCache.Delete
    simp
  refine ⟨?_, hl, ?_, ?_, ?_⟩
  · intro hnone
    have hmem : k ∉ c.items.entries.keys := List.dlookup_eq_none.mp hnone
    cases c with
    | mk items =>
      unfold InMemoryCache.Delete
      congr 1
      apply AList.ext
      exact List.kerase_of_not_mem_keys hmem
  · unfold InMemoryCache.Delete
    simp
  · intro k2 hne
    exact lookup_Delete_ne c k k2 hne
  · intro t
    rw [Get_of_lookup_none _ k t hl]

/-- Witness of C6: deleting an absent key from a one-entry cache, and the
present one. -/
theorem C6_delete_witness :
    ((NewInMemoryCache Nat).Set "key1" (some 1) 0).items.lookup "zz" = none ∧
      ((NewInMemoryCache Nat).Set "key1" (some 1) 0).Delete "zz"
        = (NewInMemoryCache Nat).Set "key1" (some 1) 0 ∧
      ((((NewInMemoryCache Nat).Set "key1" (some 1) 0).Delete "key1").Get "key1" 5).1
        = (none, false) :=
  ⟨by decide,
    (C6_delete ((NewInMemoryCache Nat).Set "key1" (some 1) 0) "zz").1 (by decide),
    (C6_delete ((NewInMemoryCache Nat).Set "key1" (some 1) 0) "key1").2.2.2.2 5⟩

/-- C7: after `Clear()` the map has no entry, and `Get(k)` returns
`(nil, false)` for every key at every clock reading. -/
theorem C7_clear {α : Type} (c : InMemoryCache α) :
    c.Clear.items.entries = [] ∧
      c.Clear = NewInMemoryCache α ∧
      (∀ k : String, c.Clear.items.lookup k = none) ∧
      (∀ (k : String) (t : Int), (c.Clear.Get k t).1 = (none, false)) := by
  refine ⟨rfl, rfl, fun k => AList.lookup_empty k, ?_⟩
  intro k t
  have he : c.Clear.items.lookup k = none := AList.lookup_empty k
  rw [Get_of_lookup_none c.Clear k t he]

/-- C8: for two distinct keys `k` and `k2`, `Set`, `SetWithExpiration` (any
duration) and `Delete` on `k` leave the entry of `k2` as it was, so `Get(k2)`
returns the same pair before and after at every clock reading; and the entry of
`k` after a write is made of the written value and the new expiry only, the same
whatever cache the write was applied to. -/
theorem C8_frame {α : Type} (c : InMemoryCache α) (k k2 : String) (v : Option α)
    (d now : Int) (hne : k ≠ k2) :
    ((c.Set k v now).items.lookup k2 = c.items.lookup k2 ∧
        (c.SetWithExpiration k v d now).items.lookup k2 = c.items.lookup k2 ∧
        (c.Delete k).items.lookup k2 = c.items.lookup k2) ∧
      (∀ t : Int, ((c.Set k v now).Get k2 t).1 = (c.Get k2 t).1 ∧
        ((c.SetWithExpiration k v d now).Get k2 t).1 = (c.Get k2 t).1 ∧
        ((c.Delete k).Get k2 t).1 = (c.Get k2 t).1) ∧
      ((c.Set k v now).items.lookup k = some ⟨v, 0⟩ ∧
        (c.SetWithExpiration k v d now).items.lookup k
          = some ⟨v, if d > 0 then wrapInt64 (now + d) else 0⟩) ∧
      (∀ c2 : InMemoryCache α,
        (c.Set k v now).items.lookup k = (c2.Set k v now).items.lookup k ∧
        (c.SetWithExpiration k v d now).items.lookup k
          = (c2.SetWithExpiration k v d now).items.lookup k) := by
  have hne2 : k2 ≠ k := fun h => hne h.symm
  have h1 : (c.Set k v now).items.lookup k2 = c.items.lookup k2 :=
    lookup_SetWithExpiration_ne c k k2 v 0 now hne2
  have h2 := lookup_SetWithExpiration_ne c k k2 v d now hne2
  have h3 := lookup_Delete_ne c k k2 hne2
  have hget : ∀ (c1 : InMemoryCache α) (t : Int), c1.items.lookup k2 = c.items.lookup k2 →
      (c1.Get k2 t).1 = (c.Get k2 t).1 := by
    intro c1 t h
    unfold InMemoryCache.Get
    rw [h]
    cases c.items.lookup k2 with
    | none => rfl
    | some item =>
      simp only
      split <;> rfl
  have hs : ∀ c1 : InMemoryCache α, (c1.Set k v now).items.lookup k = some ⟨v, 0⟩ := by
    intro c1
    unfold InMemoryCache.Set
    rw [lookup_SetWithExpiration_self]
    simp
  refine ⟨⟨h1, h2, h3⟩, ?_, ⟨hs c, lookup_SetWithExpiration_self c k v d now⟩, ?_⟩
  · intro t
    exact ⟨hget _ t h1, hget _ t h2, hget _ t h3⟩
  · intro c2
    refine ⟨?_, ?_⟩
    · rw [hs c, hs c2]
    · rw [lookup_SetWithExpiration_self, lookup_SetWithExpiration_self]

/-- Witness of C8: writes and a delete on key `a` in a cache that holds an
expiring entry under `b` and an older entry under `a`. -/
theorem C8_frame_witness :
    "a" ≠ "b" ∧
      ((((NewInMemoryCache Nat).SetWithExpiration "b" (some 2) 40 10).Set "a" (some 9) 0
          ).SetWithExpiration "a" (some 1) 30 20).items.lookup "b" = some ⟨some 2, 50⟩ ∧
      ((((NewInMemoryCache Nat).SetWithExpiration "b" (some 2) 40 10).Set "a" (some 9) 0
          ).SetWithExpiration "a" (some 1) 30 20).items.lookup "a" = some ⟨some 1, 50⟩ :=
  ⟨by decide,
    (C8_frame (((NewInMemoryCache Nat).SetWithExpiration "b" (some 2) 40 10).Set "a" (some 9) 0)
      "a" "b" (some 1) 30 20 (by decide)).1.2.1.trans (by decide),
    (C8_frame (((NewInMemoryCache Nat).SetWithExpiration "b" (some 2) 40 10).Set "a" (some 9) 0)
      "a" "b" (some 1) 30 20 (by decide)).2.2.1.2.trans (by decide)⟩

/-- C10: `Get` returns the cache it was given, unchanged, at every key and
clock reading; when it finds an expired entry it reports `(nil, false)` and
that entry is still in the map afterwards. -/
theorem C10_get_is_pure {α : Type} (c : InMemoryCache α) (k : String) (t : Int) :
    (c.Get k t).2 = c ∧
      (∀ item, c.items.lookup k = some item → item.IsExpired t = true →
        (c.Get k t).1 = (none, false) ∧ (c.Get k t).2.items.lookup k = some item) := by
  refine ⟨Get_snd c k t, ?_⟩
  intro item hl hx
  refine ⟨?_, ?_⟩
  · rw [Get_of_lookup_some c k t item hl]
    simp [hx]
  · rw [Get_snd]
    exact hl

/-- Witness of C10: a read at reading 60 of an entry whose expiry instant is
50. -/
theorem C10_get_is_pure_witness :
    ((NewInMemoryCache Nat).SetWithExpiration "a" (some 1) 40 10).items.lookup "a"
        = some ⟨some 1, 50⟩ ∧
      CacheItem.IsExpired (⟨some 1, 50⟩ : CacheItem Nat) 60 = true ∧
      (((NewInMemoryCache Nat).SetWithExpiration "a" (some 1) 40 10).Get "a" 60).1
        = (none, false) ∧
      (((NewInMemoryCache Nat).SetWithExpiration "a" (some 1) 40 10).Get "a" 60).2.items.lookup "a"
        = some ⟨some 1, 50⟩ :=
  ⟨by decide, by decide,
    (C10_get_is_pure ((NewInMemoryCache Nat).SetWithExpiration "a" (some 1) 40 10) "a" 60).2
      ⟨some 1, 50⟩ (by decide) (by decide)⟩

/-- C11: a sweep at clock reading `t` is invisible to reads made at any
reading `t2 >= t`: `Get(k)` returns the same `(value, found)` pair on the swept
cache as on the unswept one. The sweep adds no key, leaves every entry it keeps
as it was, removes only entries that `Get` at `t2` already reports as not
found, and keeps every entry that `Get` at `t2` still returns. -/
theorem C11_cleanup_invisible_to_get {α : Type} (c : InMemoryCache α) (t : Int) (k : String)
    (t2 : Int) (ht : t ≤ t2) :
    ((c.cleanup t).Get k t2).1 = (c.Get k t2).1 ∧
      (∀ item, (c.cleanup t).items.lookup k = some item → c.items.lookup k = some item) ∧
      (∀ item, c.items.lookup k = some item → (c.cleanup t).items.lookup k = none →
        (c.Get k t2).1 = (none, false)) ∧
      ((c.Get k t2).1.2 = true → (c.cleanup t).items.lookup k = c.items.lookup k) := by
  have hsw := lookup_cleanup c t k
  cases hl : c.items.lookup k with
  | none =>
    rw [hl] at hsw
    simp only at hsw
    refine ⟨?_, ?_, ?_, ?_⟩
    · rw [Get_of_lookup_none _ k t2 hsw, Get_of_lookup_none c k t2 hl]
    · intro item h
      rw [hsw] at h
      exact h
    · intro item h
      exact absurd h (by simp)
    · intro _
      exact hsw
  | some it =>
    rw [hl] at hsw
    simp only at hsw
    by_cases hc : it.Expiration > 0 ∧ t > it.Expiration
    · rw [if_pos hc] at hsw
      have hz : it.Expiration ≠ 0 := by omega
      have hlt : t2 > it.Expiration := by omega
      have hx : it.IsExpired t2 = true := by
        simp [CacheItem.IsExpired, hz, hlt]
      have hg : (c.Get k t2).1 = (none, false) := by
        rw [Get_of_lookup_some c k t2 it hl]
        simp [hx]
      refine ⟨?_, ?_, ?_, ?_⟩
      · rw [Get_of_lookup_none _ k t2 hsw, hg]
      · intro item h
        rw [hsw] at h
        exact absurd h (by simp)
      · intro item _ _
        exact hg
      · intro hfound
        rw [hg] at hfound
        exact absurd hfound (by simp)
    · rw [if_neg hc] at hsw
      refine ⟨?_, ?_, ?_, ?_⟩
      · rw [Get_of_lookup_some _ k t2 it hsw, Get_of_lookup_some c k t2 it hl]
        by_cases hx : it.IsExpired t2 = true
        · simp [hx]
        · simp [hx]
      · intro item h
        rw [hsw] at h
        exact h
      · intro item _ hnone
        rw [hsw] at hnone
        exact absurd hnone (by simp)
      · intro _
        exact hsw

/-- Witness of C11: a cache with a never-expiring entry, an entry that expired
before the sweep and one that expires after it, swept at reading 100 and read
at reading 150. -/
theorem C11_cleanup_invisible_to_get_witness :
    (100 : Int) ≤ 150 ∧
      ((((((NewInMemoryCache Nat).Set "a" (some 1) 0).SetWithExpiration "b" (some 2) 40 10
          ).SetWithExpiration "c" (some 3) 110 10).cleanup 100).Get "b" 150).1 = (none, false) ∧
      ((((((NewInMemoryCache Nat).Set "a" (some 1) 0).SetWithExpiration "b" (some 2) 40 10
          ).SetWithExpiration "c" (some 3) 110 10).cleanup 100).items.lookup "b") = none ∧
      (((((NewInMemoryCache Nat).Set "a" (some 1) 0).SetWithExpiration "b" (some 2) 40 10
          ).SetWithExpiration "c" (some 3) 110 10).items.lookup "b") = some ⟨some 2, 50⟩ :=
  ⟨by decide,
    (C11_cleanup_invisible_to_get
      ((((NewInMemoryCache Nat).Set "a" (some 1) 0).SetWithExpiration "b" (some 2) 40 10
        ).SetWithExpiration "c" (some 3) 110 10) 100 "b" 150 (by decide)).1.trans (by decide),
    by decide, by decide⟩

end cache
